import Mathlib

/-!
Verification of the sniffy secret-pruning TUI (main.go, the bubbletea
program built around `initialModel` / `Update`).

The Go source is shallowly embedded below.  Time is modelled as natural
numbers counting hours since an arbitrary epoch, so Go's
`int(time.Since(t).Hours() / 24)` becomes `(now - t) / 24` with natural
truncating division (timestamps in scope never lie in the future).
External collaborators (AWS client, bubbles textinput/table, clipboard)
are modelled at their narrow interface, as the spec prescribes: the AWS
delete call is an oracle saying which names fail, the textinput appends
the typed character, the table is its cursor.
-/

namespace Sniffy

/-- Embeds the Go struct `SecretEntry` (name, CreatedDate, LastAccessedDate).
`createdDate` is always present (upstream skips entries without one);
`lastAccessedDate` may be absent. Timestamps are hours since epoch. -/
structure SecretEntry where
  name : String
  createdDate : Nat
  lastAccessedDate : Option Nat
deriving DecidableEq

/-- Embeds the Go struct `SecretResult` (Name, LastAccessed label). -/
structure SecretResult where
  name : String
  lastAccessed : String
deriving DecidableEq

/-- Embeds the Go struct `VersionInfo`. -/
structure VersionInfo where
  versionId : String
  createdDate : String
  lastAccessed : String
  stages : String
  value : String
  revealed : Bool
deriving DecidableEq

/-- The Go constant `recentThresholdDays = 14`. -/
def recentThresholdDays : Nat := 14

/-- Embeds the `daysSinceAccess` computation inside
`SecretAnalyzer.AnalyzeSecrets`: days since last access when the
last-accessed timestamp is present, otherwise days since creation
(`int(time.Since(t).Hours() / 24)`, truncating). -/
def daysSinceAccess (now : Nat) (e : SecretEntry) : Nat :=
  match e.lastAccessedDate with
  | some t => (now - t) / 24
  | none => (now - e.createdDate) / 24

/-- Stands for Go's `t.Format("2006-01-02")` under the hours-since-epoch
time model: a printable rendering of the calendar day of `t`. -/
def formatDate (t : Nat) : String :=
  "day " ++ toString (t / 24)

/-- The `lastAccessedStr` computed per entry in `AnalyzeSecrets`:
the formatted date when present, `"Never"` otherwise. -/
def lastAccessedLabel (e : SecretEntry) : String :=
  match e.lastAccessedDate with
  | some t => formatDate t
  | none => "Never"

/-- Embeds the analysis loop of `SecretAnalyzer.AnalyzeSecrets` (the AWS
fetch is abstracted to its result, the `entries` list): when `applyFilter`
is set, entries with `daysSinceAccess <= recentThresholdDays` are skipped;
every kept entry is annotated with its last-accessed label. -/
def analyzeSecrets (now : Nat) (entries : List SecretEntry) (applyFilter : Bool) :
    List SecretResult :=
  match entries with
  | [] => []
  | e :: rest =>
    if applyFilter ∧ daysSinceAccess now e ≤ recentThresholdDays then
      analyzeSecrets now rest applyFilter
    else
      { name := e.name, lastAccessed := lastAccessedLabel e } :: analyzeSecrets now rest applyFilter

/-- Embeds the scanning loop of `isFuzzyMatch` (after both strings have
been lowercased): for each query character, advance through the target
until it is found; fail when the target is exhausted first.  This is the
standard greedy subsequence scan. -/
def fuzzyScan : List Char → List Char → Bool
  | [], _ => true
  | _ :: _, [] => false
  | c :: cs, t :: ts => if t = c then fuzzyScan cs ts else fuzzyScan (c :: cs) ts

/-- `isFuzzyMatch` on lists of characters: lowercase both sides, then run
the greedy scan.  (Go lowercases with `strings.ToLower` and then walks
bytes; on the ASCII names this program handles the two agree, and we model
at character level with `Char.toLower`.) -/
def isFuzzyMatchChars (query target : List Char) : Bool :=
  fuzzyScan (query.map Char.toLower) (target.map Char.toLower)

/-- Embeds the Go function `isFuzzyMatch(query, target string) bool`. -/
def isFuzzyMatch (query target : String) : Bool :=
  isFuzzyMatchChars query.toList target.toList

/-- A key event, matching the strings `tea.KeyMsg.String()` produces:
plain printable keys (including letters such as `'q'`, `'D'`, `'/'` and
the space bar) and the named keys the program inspects. -/
inductive Key where
  | char (c : Char)
  | enter
  | esc
  | up
  | down
  | backspace
  | ctrlC
deriving DecidableEq

/-- The bubbletea messages the `Update` function of the second model
handles (spinner/progress frame ticks are rendering-only and omitted).
Async completions carry the payload their Go counterparts carry:
`analysisComplete` the scanned results plus an optional error,
`deleteComplete` only the optional aggregated error string. -/
inductive Msg where
  | key (k : Key)
  | startScan
  | analysisComplete (results : List SecretResult) (err : Option String)
  | versionsFetched (versions : List VersionInfo) (err : Option String)
  | valueRevealed (index : Nat) (value : String) (err : Option String)
  | deleteComplete (err : Option String)
  | clearCopied
deriving DecidableEq

/-- The commands `Update` can return (`tea.Quit`, the delayed
`startScanMsg` tick, the scan itself, version fetch, value reveal, the
batch delete, and the copied-message clearing tick). `tea.Batch` with the
spinner tick is collapsed to its non-cosmetic component. -/
inductive Cmd where
  | none
  | quit
  | tickStartScan
  | scan
  | fetchVersions
  | reveal (index : Nat)
  | delete
  | tickClearCopied
deriving DecidableEq

/-- Embeds the Go `model` struct of the bubbletea program.  Rendering
state is reduced to its data: the two bubbles tables are their cursors
(`cursor`, `versionCursor`), the textinput is its value (`filterValue`,
a character list), spinner/progress are dropped, and the unused
`filterMode` field is dropped.  `analyzerOk` models `analyzer != nil`. -/
structure Model where
  state : String
  results : List SecretResult
  baseResults : List SecretResult
  originalResults : List SecretResult
  selected : List Bool
  originalSelected : List Bool
  filterValue : List Char
  scanning : Bool
  analyzerOk : Bool
  currentScanStep : String
  err : Option String
  viewingSecret : String
  versions : List VersionInfo
  confirmDelete : Bool
  deleteError : String
  copiedMessage : String
  lastCursorPos : Nat
  filtered : Bool
  hasFilter : Bool
  cursor : Nat
  versionCursor : Nat
deriving DecidableEq

/-- Embeds Go `initialModel()`; `analyzerOk` records whether
`NewSecretAnalyzer` succeeded (on failure the Go code stores the error
and a nil analyzer). -/
def initialModel (analyzerOk : Bool) : Model where
  state := "banner"
  results := []
  baseResults := []
  originalResults := []
  selected := []
  originalSelected := []
  filterValue := []
  scanning := false
  analyzerOk := analyzerOk
  currentScanStep := "Ready to scan"
  err := if analyzerOk then Option.none else some "unable to load SDK config"
  viewingSecret := ""
  versions := []
  confirmDelete := false
  deleteError := ""
  copiedMessage := ""
  lastCursorPos := 0
  filtered := true
  hasFilter := false
  cursor := 0
  versionCursor := 0

/-- Models the bubbles `textinput.Model.Update`: a printable key appends
its character to the value, backspace removes the last character, every
other key the program feeds through leaves the value unchanged. -/
def textinputUpdate (value : List Char) (k : Key) : List Char :=
  match k with
  | Key.char c => value ++ [c]
  | Key.backspace => value.dropLast
  | _ => value

/-- Models the bubbles table cursor movement (`LineUp`/`LineDown` on
up/k and down/j, clamped to the row range); other keys the program feeds
through leave the cursor in place. -/
def tableCursorUpdate (rows cursor : Nat) (k : Key) : Nat :=
  match k with
  | Key.up => cursor - 1
  | Key.char 'k' => cursor - 1
  | Key.down => min (cursor + 1) (rows - 1)
  | Key.char 'j' => min (cursor + 1) (rows - 1)
  | _ => cursor

/-- The live filter recomputation performed on every keystroke in the
`filter_include` / `filter_exclude` branch of `Update`: keep a result of
the snapshot when it fuzzy-matches (include mode) or does not (exclude
mode). -/
def filterPreview (state : String) (original : List SecretResult) (query : List Char) :
    List SecretResult :=
  original.filter fun res =>
    let mtch := isFuzzyMatchChars query res.name.toList
    (state == "filter_include" && mtch) || (state == "filter_exclude" && !mtch)

/-- Embeds the `confirm_delete` key branch of `Update`. -/
def confirmDeleteKey (m : Model) (k : Key) : Model × Cmd :=
  if k = Key.char 'y' then
    ({ m with confirmDelete := false }, Cmd.delete)
  else if k = Key.char 'n' ∨ k = Key.esc then
    ({ m with confirmDelete := false, state := "results", deleteError := "" }, Cmd.none)
  else
    (m, Cmd.none)

/-- Embeds the `filter_include` / `filter_exclude` key branch of
`Update`: feed the key to the textinput, recompute the preview from the
`originalResults` snapshot, reset the mask to the preview length; then
escape restores the snapshot and enter commits, both returning to
`results`. -/
def filterKey (m : Model) (k : Key) : Model × Cmd :=
  let value := textinputUpdate m.filterValue k
  let temp := filterPreview m.state m.originalResults value
  let m1 : Model :=
    { m with filterValue := value, results := temp,
             selected := List.replicate temp.length false }
  if k = Key.esc then
    ({ m1 with results := m1.originalResults, selected := m1.originalSelected,
               state := "results" }, Cmd.none)
  else if k = Key.enter then
    ({ m1 with hasFilter := true, state := "results" }, Cmd.none)
  else
    (m1, Cmd.none)

/-- The guard of the reveal command in `view_secret`: the version table
cursor denotes an existing, not yet revealed version. -/
def canReveal (versions : List VersionInfo) (i : Nat) : Bool :=
  match versions.get? i with
  | some v => !v.revealed
  | Option.none => false

/-- Embeds the `view_secret` key branch of `Update` (clipboard writes are
modelled as succeeding, per the best-effort contract). -/
def viewSecretKey (m : Model) (k : Key) : Model × Cmd :=
  if k = Key.esc then
    ({ m with state := "results", viewingSecret := "", versions := [],
              cursor := m.lastCursorPos }, Cmd.none)
  else if k = Key.char 'r' ∧ canReveal m.versions m.versionCursor then
    (m, Cmd.reveal m.versionCursor)
  else if k = Key.char 'y' then
    ({ m with copiedMessage := "Copied secret name to clipboard" }, Cmd.tickClearCopied)
  else
    ({ m with versionCursor := tableCursorUpdate m.versions.length m.versionCursor k },
     Cmd.none)

/-- Embeds the `results` key branch of `Update`.  The Go code is a chain
of `if` statements where the space-toggle and shift-D branches do not
return, so their effect threads into the later checks and finally into
the table update; `m1`/`m2`/`m3` mirror that threading. -/
def resultsKey (m : Model) (k : Key) : Model × Cmd :=
  if k = Key.char 'r' then
    ({ m with filtered := true, state := "banner", scanning := false }, Cmd.tickStartScan)
  else if k = Key.char 'R' then
    ({ m with filtered := false, state := "banner", scanning := false }, Cmd.tickStartScan)
  else if k = Key.enter ∧ m.cursor < m.results.length then
    ({ m with lastCursorPos := m.cursor,
              viewingSecret := ((m.results.getD m.cursor { name := "", lastAccessed := "" }).name),
              state := "view_secret" }, Cmd.fetchVersions)
  else
    let m1 : Model :=
      if k = Key.char ' ' ∧ m.cursor < m.selected.length then
        { m with selected := m.selected.set m.cursor (!(m.selected.getD m.cursor false)) }
      else m
    let m2 : Model :=
      if k = Key.char 'D' ∧ m1.selected.any (fun b => b) then
        { m1 with confirmDelete := true, state := "confirm_delete" }
      else m1
    if k = Key.char 'y' ∧ m2.cursor < m2.results.length then
      ({ m2 with copiedMessage := "Copied secret name to clipboard" }, Cmd.tickClearCopied)
    else if k = Key.char '/' then
      ({ m2 with state := "filter_include", originalResults := m2.results,
                 originalSelected := m2.selected, filterValue := [] }, Cmd.none)
    else if k = Key.char '?' then
      ({ m2 with state := "filter_exclude", originalResults := m2.results,
                 originalSelected := m2.selected, filterValue := [] }, Cmd.none)
    else
      let m3 : Model :=
        if k = Key.esc ∧ m2.hasFilter then
          { m2 with results := m2.baseResults,
                    selected := List.replicate m2.baseResults.length false,
                    hasFilter := false }
        else m2
      ({ m3 with cursor := tableCursorUpdate m3.results.length m3.cursor k }, Cmd.none)

/-- Disjoint-dispatch form of `resultsKey`.  Every branch of the Go
if-chain is guarded by a distinct key, so the non-returning fall-through
of the space-toggle and shift-D branches only ever reaches the final
table update; `resultsKey_eq_cases` proves the two forms equal. -/
def resultsKeyCases (m : Model) (k : Key) : Model × Cmd :=
  if k = Key.char 'r' then
    ({ m with filtered := true, state := "banner", scanning := false }, Cmd.tickStartScan)
  else if k = Key.char 'R' then
    ({ m with filtered := false, state := "banner", scanning := false }, Cmd.tickStartScan)
  else if k = Key.enter ∧ m.cursor < m.results.length then
    ({ m with lastCursorPos := m.cursor,
              viewingSecret := ((m.results.getD m.cursor { name := "", lastAccessed := "" }).name),
              state := "view_secret" }, Cmd.fetchVersions)
  else if k = Key.char ' ' ∧ m.cursor < m.selected.length then
    ({ m with selected := m.selected.set m.cursor (!(m.selected.getD m.cursor false)),
              cursor := tableCursorUpdate m.results.length m.cursor k }, Cmd.none)
  else if k = Key.char 'D' ∧ m.selected.any (fun b => b) then
    ({ m with confirmDelete := true, state := "confirm_delete",
              cursor := tableCursorUpdate m.results.length m.cursor k }, Cmd.none)
  else if k = Key.char 'y' ∧ m.cursor < m.results.length then
    ({ m with copiedMessage := "Copied secret name to clipboard" }, Cmd.tickClearCopied)
  else if k = Key.char '/' then
    ({ m with state := "filter_include", originalResults := m.results,
              originalSelected := m.selected, filterValue := [] }, Cmd.none)
  else if k = Key.char '?' then
    ({ m with state := "filter_exclude", originalResults := m.results,
              originalSelected := m.selected, filterValue := [] }, Cmd.none)
  else if k = Key.esc ∧ m.hasFilter then
    ({ m with results := m.baseResults,
              selected := List.replicate m.baseResults.length false, hasFilter := false,
              cursor := tableCursorUpdate m.baseResults.length m.cursor k }, Cmd.none)
  else
    ({ m with cursor := tableCursorUpdate m.results.length m.cursor k }, Cmd.none)

/-- Embeds the `tea.KeyMsg` case of `Update`: the global quit check runs
first, then the state-specific branches; keys in `banner`, `scanning`
and `error` fall through unhandled. -/
def updateKey (m : Model) (k : Key) : Model × Cmd :=
  if k = Key.char 'q' ∨ k = Key.ctrlC then
    (m, Cmd.quit)
  else if m.state = "confirm_delete" then
    confirmDeleteKey m k
  else if m.state = "filter_include" ∨ m.state = "filter_exclude" then
    filterKey m k
  else if m.state = "view_secret" then
    viewSecretKey m k
  else if m.state = "results" then
    resultsKey m k
  else
    (m, Cmd.none)

/-- Sets version `index` to its revealed value, as
`m.versions[msg.index].Value = msg.value; ... Revealed = true` does
(Go would panic out of range; the model leaves the list unchanged). -/
def revealAt : List VersionInfo → Nat → String → List VersionInfo
  | [], _, _ => []
  | v :: rest, 0, value => { v with value := value, revealed := true } :: rest
  | v :: rest, n + 1, value => v :: revealAt rest n value

/-- Embeds the message switch of the Go `Update` function. -/
def update (m : Model) : Msg → Model × Cmd
  | Msg.key k => updateKey m k
  | Msg.startScan =>
    if ¬m.analyzerOk then
      ({ m with state := "error" }, Cmd.none)
    else
      ({ m with state := "scanning", scanning := true,
                currentScanStep := "Connecting to AWS and analyzing secrets..." }, Cmd.scan)
  | Msg.analysisComplete results err =>
    let m1 : Model :=
      { m with scanning := false, state := "results", baseResults := results,
               results := results, err := err }
    match err with
    | Option.none =>
      ({ m1 with selected := List.replicate m1.results.length false, hasFilter := false },
       Cmd.none)
    | some _ => (m1, Cmd.none)
  | Msg.versionsFetched versions err =>
    match err with
    | some e => ({ m with err := some e, state := "results" }, Cmd.none)
    | Option.none => ({ m with versions := versions }, Cmd.none)
  | Msg.valueRevealed index value err =>
    match err with
    | some e => ({ m with err := some e }, Cmd.none)
    | Option.none => ({ m with versions := revealAt m.versions index value }, Cmd.none)
  | Msg.deleteComplete err =>
    match err with
    | some e => ({ m with deleteError := e, state := "results" }, Cmd.none)
    | Option.none =>
      let kept := (m.results.zip m.selected).filter fun p => !p.2
      ({ m with results := kept.map (fun p => p.1),
                baseResults := kept.map (fun p => p.1),
                selected := kept.map (fun _ => false),
                state := "results" }, Cmd.none)
  | Msg.clearCopied => ({ m with copiedMessage := "" }, Cmd.none)

/-- The model after one key event (first projection of `updateKey`). -/
def stepKey (m : Model) (k : Key) : Model :=
  (updateKey m k).1

/-- Embeds the error-line accumulation of `performDelete`: walk the
(result, selected) pairs in order and append
`name ++ ": delete failed\n"` for every selected record whose delete
call fails (the oracle `fails` stands for the AWS `DeleteSecret` error);
unselected and successful records add nothing and the loop continues. -/
def deleteErrLoop (fails : String → Bool) : List (SecretResult × Bool) → String
  | [] => ""
  | (r, sel) :: rest =>
    if sel && fails r.name then
      r.name ++ ": delete failed\n" ++ deleteErrLoop fails rest
    else
      deleteErrLoop fails rest

/-- The names the error string reports: selected records whose delete
call failed, in display order. -/
def deleteFailedNames (fails : String → Bool) (m : Model) : List String :=
  (((m.results.zip m.selected).filter fun p => p.2 && fails p.1.name).map fun p => p.1.name)

/-- Embeds the Go `performDelete` command: delete every selected record
sequentially, aggregate per-record failures into one string, and return
`deleteCompleteMsg` carrying the aggregated error when any call failed
and no error otherwise. -/
def performDelete (fails : String → Bool) (m : Model) : Msg :=
  let errStr := deleteErrLoop fails (m.results.zip m.selected)
  if errStr.length > 0 then
    Msg.deleteComplete (some errStr)
  else
    Msg.deleteComplete Option.none

/-- Embeds `startRealScan`: run the analyzer against the fetch outcome
(`fetch` is the `ListSecrets` result or its error) and wrap it in
`analysisCompleteMsg`; on a fetch error `AnalyzeSecrets` returns a nil
result list alongside the error. -/
def startRealScan (m : Model) (now : Nat) (fetch : Except String (List SecretEntry)) : Msg :=
  match fetch with
  | Except.error e => Msg.analysisComplete [] (some e)
  | Except.ok entries => Msg.analysisComplete (analyzeSecrets now entries m.filtered) Option.none

/-- States reachable from `init` by processing any sequence of messages
whose elements satisfy `P` (safety over-approximation: real runs deliver
a subset of these message sequences). -/
inductive Reachable (P : Msg → Prop) (init : Model) : Model → Prop where
  | refl : Reachable P init init
  | step {m : Model} (msg : Msg) : Reachable P init m → P msg →
      Reachable P init (update m msg).1

/-- Message filter for runs whose scans all complete successfully. -/
def scanOk : Msg → Prop
  | Msg.analysisComplete _ (some _) => False
  | _ => True

/-- Short-hand for a displayed record that was never accessed. -/
def rec0 (n : String) : SecretResult :=
  { name := n, lastAccessed := "Never" }

/-- Fixture for the delete scenario: three results `a`, `b`, `c` with the
first two selected, delete confirmed. -/
def c1model : Model :=
  { initialModel true with
      state := "confirm_delete",
      results := [rec0 "a", rec0 "b", rec0 "c"],
      baseResults := [rec0 "a", rec0 "b", rec0 "c"],
      selected := [true, true, false] }

/-- Delete oracle failing exactly for the record named `b`. -/
def failsOnlyB : String → Bool := fun n => n == "b"

/-- Fixture for the base-set scenario: base holds `a`, `b`, `c`, an active
include filter displays only `a`, `b`, and `a` is selected. -/
def c2model : Model :=
  { initialModel true with
      state := "confirm_delete",
      results := [rec0 "a", rec0 "b"],
      baseResults := [rec0 "a", rec0 "b", rec0 "c"],
      selected := [true, false],
      hasFilter := true }

/-- Fixture of a running include-filter session whose snapshot holds the
two records `a` and `b` while the preview shows only `a`. -/
def c7model : Model :=
  { initialModel true with
      state := "filter_include",
      results := [rec0 "a"],
      originalResults := [rec0 "a", rec0 "b"] }

/-- Fixture with five displayed rows, row 2 selected, in `results`. -/
def c5model : Model :=
  { initialModel true with
      state := "results",
      results := [rec0 "a", rec0 "b", rec0 "c", rec0 "d", rec0 "e"],
      baseResults := [rec0 "a", rec0 "b", rec0 "c", rec0 "d", rec0 "e"],
      selected := [false, true, false, false, false] }

/-- Fixture with five displayed rows, none selected, cursor on row 2. -/
def c8model : Model :=
  { initialModel true with
      state := "results",
      results := [rec0 "a", rec0 "b", rec0 "c", rec0 "d", rec0 "e"],
      baseResults := [rec0 "a", rec0 "b", rec0 "c", rec0 "d", rec0 "e"],
      selected := [false, false, false, false, false],
      cursor := 1 }

/-- After one successful scan of one record. -/
def c6step1 : Model := (update (initialModel true) Msg.startScan).1

/-- Scan completed with one record. -/
def c6step2 : Model := (update c6step1 (Msg.analysisComplete [rec0 "a"] Option.none)).1

/-- Rescan requested with `r`. -/
def c6step3 : Model := (update c6step2 (Msg.key (Key.char 'r'))).1

/-- Rescan started. -/
def c6step4 : Model := (update c6step3 Msg.startScan).1

/-- The rescan fails: `AnalyzeSecrets` returns a nil result list and the
fetch error. -/
def c6final : Model := (update c6step4 (Msg.analysisComplete [] (some "fetch failed"))).1

/-- A scan that finds one record. -/
def c9step1 : Model := (update (initialModel true) Msg.startScan).1

/-- Scan completed with one record. -/
def c9step2 : Model := (update c9step1 (Msg.analysisComplete [rec0 "a"] Option.none)).1

/-- The record at the cursor toggled on. -/
def c9step3 : Model := (update c9step2 (Msg.key (Key.char ' '))).1

/-- Shift-D pressed: delete confirmation opens. -/
def c9final : Model := (update c9step3 (Msg.key (Key.char 'D'))).1

/-- The sequential Go if-chain of `resultsKey` equals its
disjoint-dispatch form. -/
theorem resultsKey_eq_cases (m : Model) (k : Key) :
    resultsKey m k = resultsKeyCases m k := by
  cases k with
  | enter =>
    by_cases h : m.cursor < m.results.length <;>
      simp [resultsKey, resultsKeyCases, h]
  | esc =>
    by_cases h : m.hasFilter <;> simp [resultsKey, resultsKeyCases, h]
  | up => simp [resultsKey, resultsKeyCases]
  | down => simp [resultsKey, resultsKeyCases]
  | backspace => simp [resultsKey, resultsKeyCases]
  | ctrlC => simp [resultsKey, resultsKeyCases]
  | char c =>
    by_cases hr : c = 'r'
    · simp [resultsKey, resultsKeyCases, hr]
    by_cases hR : c = 'R'
    · simp [resultsKey, resultsKeyCases, hr, hR]
    by_cases hsp : c = ' '
    · subst hsp
      by_cases hcur : m.cursor < m.selected.length <;>
        simp [resultsKey, resultsKeyCases, hcur]
    by_cases hD : c = 'D'
    · subst hD
      by_cases hany : m.selected.any (fun b => b) <;>
        simp [resultsKey, resultsKeyCases, hany]
    by_cases hy : c = 'y'
    · subst hy
      by_cases hcur : m.cursor < m.results.length <;>
        simp [resultsKey, resultsKeyCases, hcur]
    by_cases hsl : c = '/'
    · simp [resultsKey, resultsKeyCases, hr, hR, hsp, hD, hy, hsl]
    by_cases hqm : c = '?'
    · simp [resultsKey, resultsKeyCases, hr, hR, hsp, hD, hy, hsl, hqm]
    · simp [resultsKey, resultsKeyCases, hr, hR, hsp, hD, hy, hsl, hqm]

/-! ## Fuzzy matching (C4) -/

/-- The greedy scan succeeds exactly when the query is an ordered, not
necessarily contiguous, subsequence of the target. -/
theorem fuzzyScan_eq_true_iff (q t : List Char) : fuzzyScan q t = true ↔ List.Sublist q t := by
  induction t generalizing q with
  | nil =>
    cases q with
    | nil => simp [fuzzyScan]
    | cons c cs => simp [fuzzyScan]
  | cons a ts ih =>
    cases q with
    | nil => simp [fuzzyScan, List.nil_sublist]
    | cons c cs =>
      by_cases h : a = c
      · subst h
        simp [fuzzyScan, ih, List.cons_sublist_cons]
      · rw [show fuzzyScan (c :: cs) (a :: ts) = fuzzyScan (c :: cs) ts from by
          simp [fuzzyScan, h]]
        rw [ih]
        constructor
        · intro hs
          exact List.sublist_cons_of_sublist a hs
        · intro hs
          rcases List.cons_sublist_cons'.mp hs with h1 | ⟨h2, _⟩
          · exact h1
          · exact absurd h2.symm h

/-- C4 counterexample: the spec's concrete example is wrong on the code —
`isFuzzyMatch "src" "my-secret-name"` is `false` (after the only `s`, the
only later `r` is followed by no `c`), while the claim asserts it is
true. -/
theorem isFuzzyMatch_src_counterexample :
    isFuzzyMatch "src" "my-secret-name" = false := by decide

/-- C4 (amended): the fuzzy match predicate returns true iff the
lowercased query characters appear as an ordered, not necessarily
contiguous, subsequence of the lowercased target; in particular
`isFuzzyMatch "scrt" "my-secret-name"` is true (while `"src"` is not a
match), `isFuzzyMatch "xyz" "my-secret-name"` is false, and the empty
query matches every target. -/
theorem isFuzzyMatch_iff_subsequence :
    (∀ q t : String, isFuzzyMatch q t = true ↔
        List.Sublist (q.toList.map Char.toLower) (t.toList.map Char.toLower))
  ∧ isFuzzyMatch "scrt" "my-secret-name" = true
  ∧ isFuzzyMatch "xyz" "my-secret-name" = false
  ∧ (∀ t : String, isFuzzyMatch "" t = true) := by
  refine ⟨fun q t => fuzzyScan_eq_true_iff _ _, by decide, by decide, fun t => ?_⟩
  exact (fuzzyScan_eq_true_iff _ _).mpr (List.nil_sublist _)

/-! ## Analyzer staleness (C3) -/

/-- The filtering pass keeps exactly the entries whose staleness age
exceeds the threshold. -/
theorem analyzeSecrets_true_eq (now : Nat) (entries : List SecretEntry) :
    analyzeSecrets now entries true
      = (entries.filter fun e => decide (recentThresholdDays < daysSinceAccess now e)).map
          (fun e => { name := e.name, lastAccessed := lastAccessedLabel e }) := by
  induction entries with
  | nil => rfl
  | cons e rest ih =>
    by_cases h : daysSinceAccess now e ≤ recentThresholdDays
    · simp [analyzeSecrets, h, ih, List.filter_cons, Nat.not_lt.mpr h]
    · simp [analyzeSecrets, h, ih, List.filter_cons, Nat.not_le.mp h]

/-- The unfiltered pass annotates every entry. -/
theorem analyzeSecrets_false_eq (now : Nat) (entries : List SecretEntry) :
    analyzeSecrets now entries false
      = entries.map (fun e => { name := e.name, lastAccessed := lastAccessedLabel e }) := by
  induction entries with
  | nil => rfl
  | cons e rest ih => simp [analyzeSecrets, ih]

/-- C3: staleness age is days since last access when present, otherwise
days since creation; a record is stale exactly when that age exceeds the
fixed 14-day threshold; with `applyRecencyFilter` true the analyzer
returns exactly the stale records, with it false it returns all records;
the last-accessed label is `"Never"` exactly in the absent case. -/
theorem analyzer_staleness (now : Nat) (entries : List SecretEntry) :
    analyzeSecrets now entries true
      = (entries.filter fun e => decide (recentThresholdDays < daysSinceAccess now e)).map
          (fun e => { name := e.name, lastAccessed := lastAccessedLabel e })
  ∧ analyzeSecrets now entries false
      = entries.map (fun e => { name := e.name, lastAccessed := lastAccessedLabel e })
  ∧ (∀ e : SecretEntry, e.lastAccessedDate = Option.none →
      daysSinceAccess now e = (now - e.createdDate) / 24 ∧ lastAccessedLabel e = "Never")
  ∧ (∀ (e : SecretEntry) (t : Nat), e.lastAccessedDate = some t →
      daysSinceAccess now e = (now - t) / 24) := by
  refine ⟨analyzeSecrets_true_eq now entries, analyzeSecrets_false_eq now entries,
    fun e he => ⟨?_, ?_⟩, fun e t he => ?_⟩
  · simp [daysSinceAccess, he]
  · simp [lastAccessedLabel, he]
  · simp [daysSinceAccess, he]

/-- Witness for C3: a concrete run at hour 2400 with a recently accessed
entry and a 20-day-old never-accessed entry. -/
theorem analyzer_staleness_witness :
    analyzeSecrets 2400 [⟨"fresh", 0, some 2376⟩, ⟨"stale1", 1920, Option.none⟩] true
      = [{ name := "stale1", lastAccessed := "Never" }]
  ∧ daysSinceAccess 2400 ⟨"stale1", 1920, Option.none⟩ = (2400 - 1920) / 24
  ∧ lastAccessedLabel ⟨"stale1", 1920, Option.none⟩ = "Never" :=
  ⟨by decide,
   ((analyzer_staleness 2400 [⟨"fresh", 0, some 2376⟩, ⟨"stale1", 1920, Option.none⟩]).2.2.1
      ⟨"stale1", 1920, Option.none⟩ rfl).1,
   ((analyzer_staleness 2400 [⟨"fresh", 0, some 2376⟩, ⟨"stale1", 1920, Option.none⟩]).2.2.1
      ⟨"stale1", 1920, Option.none⟩ rfl).2⟩

/-! ## Filter preview (C7) -/

/-- Filtering an already-filtered list by the same predicate changes nothing. -/
theorem filter_self_idem {α : Type} (p : α → Bool) (l : List α) :
    (l.filter p).filter p = l.filter p := by
  induction l with
  | nil => rfl
  | cons a l ih => by_cases h : p a <;> simp [List.filter_cons, h, ih]

/-- C7: every filter keystroke recomputes the preview from the untouched
`originalResults` snapshot (never from the previously displayed, possibly
filtered view), and applying the same query in the same mode to an
already-filtered baseline yields the same result set (idempotence). -/
theorem filter_preview_baseline_idempotent :
    (∀ (m : Model) (k : Key),
        (m.state = "filter_include" ∨ m.state = "filter_exclude") →
        k ≠ Key.char 'q' → k ≠ Key.ctrlC → k ≠ Key.esc →
        (stepKey m k).results
          = filterPreview m.state m.originalResults (textinputUpdate m.filterValue k))
  ∧ (∀ (baseline : List SecretResult) (query : List Char) (mode : String),
        filterPreview mode (filterPreview mode baseline query) query
          = filterPreview mode baseline query) := by
  constructor
  · intro m k hst hq hc he
    rcases hst with h | h <;>
      · by_cases hk : k = Key.enter <;>
          simp [stepKey, updateKey, h, filterKey, hq, hc, he, hk]
  · intro baseline query mode
    exact filter_self_idem _ baseline

/-- Witness for C7: a concrete keystroke in a filter session. -/
theorem filter_preview_witness :
    (stepKey c7model (Key.char 'b')).results
      = filterPreview "filter_include" [rec0 "a", rec0 "b"] ['b']
  ∧ filterPreview "filter_include" (filterPreview "filter_include" [rec0 "a"] ['a']) ['a']
      = filterPreview "filter_include" [rec0 "a"] ['a'] :=
  ⟨(filter_preview_baseline_idempotent.1 c7model (Key.char 'b') (Or.inl rfl)
      (by decide) (by decide) (by decide)),
   filter_preview_baseline_idempotent.2 [rec0 "a"] ['a'] "filter_include"⟩

/-! ## Filter cancel (C5) -/

/-- A single non-exiting keystroke inside a filter session keeps the
session state and the pre-filter snapshot untouched. -/
theorem filter_step_frame (s : Model) (k : Key)
    (hs : s.state = "filter_include" ∨ s.state = "filter_exclude")
    (h1 : k ≠ Key.esc) (h2 : k ≠ Key.enter) (h3 : k ≠ Key.char 'q') (h4 : k ≠ Key.ctrlC) :
    (stepKey s k).state = s.state
  ∧ (stepKey s k).originalResults = s.originalResults
  ∧ (stepKey s k).originalSelected = s.originalSelected := by
  rcases hs with h | h <;> simp [stepKey, updateKey, filterKey, h, h1, h2, h3, h4]

/-- Folding non-exiting keystrokes over a filter session preserves the
session state and the snapshot. -/
theorem filter_fold_frame :
    ∀ (ks : List Key) (base : Model),
      (∀ k ∈ ks, k ≠ Key.esc ∧ k ≠ Key.enter ∧ k ≠ Key.char 'q' ∧ k ≠ Key.ctrlC) →
      (base.state = "filter_include" ∨ base.state = "filter_exclude") →
      (List.foldl stepKey base ks).state = base.state
    ∧ (List.foldl stepKey base ks).originalResults = base.originalResults
    ∧ (List.foldl stepKey base ks).originalSelected = base.originalSelected := by
  intro ks
  induction ks with
  | nil => intro base _ _; exact ⟨rfl, rfl, rfl⟩
  | cons k ks ih =>
    intro base hks hs
    obtain ⟨hk1, hk2, hk3, hk4⟩ := hks k (List.mem_cons_self k ks)
    have hstep := filter_step_frame base k hs hk1 hk2 hk3 hk4
    have hs2 : (stepKey base k).state = "filter_include"
        ∨ (stepKey base k).state = "filter_exclude" := by
      rw [hstep.1]; exact hs
    have ihr := ih (stepKey base k) (fun x hx => hks x (List.mem_cons_of_mem _ hx)) hs2
    simp only [List.foldl_cons]
    exact ⟨ihr.1.trans hstep.1, ihr.2.1.trans hstep.2.1, ihr.2.2.trans hstep.2.2⟩

/-- Opening a filter with `/` or `?` snapshots the displayed results and
the selection mask. -/
theorem open_filter_snapshot (m : Model) (mode : Key)
    (hm : m.state = "results") (hmode : mode = Key.char '/' ∨ mode = Key.char '?') :
    ((stepKey m mode).state = "filter_include" ∨ (stepKey m mode).state = "filter_exclude")
  ∧ (stepKey m mode).originalResults = m.results
  ∧ (stepKey m mode).originalSelected = m.selected := by
  rcases hmode with h | h <;> subst h <;>
    simp [stepKey, updateKey, hm, resultsKey]

/-- Escape inside a filter session restores the snapshot and returns to
`results`. -/
theorem filter_esc_restores (s : Model)
    (hs : s.state = "filter_include" ∨ s.state = "filter_exclude") :
    (stepKey s Key.esc).results = s.originalResults
  ∧ (stepKey s Key.esc).selected = s.originalSelected
  ∧ (stepKey s Key.esc).state = "results" := by
  rcases hs with h | h <;> simp [stepKey, updateKey, filterKey, h]

/-- C5: canceling a filter session with escape restores exactly the
pre-filter state: after opening a filter from `results` and any sequence
of non-exiting filter keystrokes, escape returns to `results` with the
ResultSet and the selection mask equal to their values when the session
began (selection changes of the preview are discarded). -/
theorem filter_cancel_restores (m : Model) (mode : Key) (ks : List Key)
    (hm : m.state = "results")
    (hmode : mode = Key.char '/' ∨ mode = Key.char '?')
    (hks : ∀ k ∈ ks, k ≠ Key.esc ∧ k ≠ Key.enter ∧ k ≠ Key.char 'q' ∧ k ≠ Key.ctrlC) :
    (stepKey (List.foldl stepKey (stepKey m mode) ks) Key.esc).results = m.results
  ∧ (stepKey (List.foldl stepKey (stepKey m mode) ks) Key.esc).selected = m.selected
  ∧ (stepKey (List.foldl stepKey (stepKey m mode) ks) Key.esc).state = "results" := by
  obtain ⟨hs0, ho0, hsel0⟩ := open_filter_snapshot m mode hm hmode
  obtain ⟨hfs, hfo, hfsel⟩ := filter_fold_frame ks (stepKey m mode) hks hs0
  have hsState : (List.foldl stepKey (stepKey m mode) ks).state = "filter_include"
      ∨ (List.foldl stepKey (stepKey m mode) ks).state = "filter_exclude" := by
    rw [hfs]; exact hs0
  have hesc := filter_esc_restores (List.foldl stepKey (stepKey m mode) ks) hsState
  exact ⟨hesc.1.trans (hfo.trans ho0), hesc.2.1.trans (hfsel.trans hsel0), hesc.2.2⟩

/-- Witness for C5: a session with two selected-of-five rows, two typed
characters and a backspace, canceled with escape. -/
theorem filter_cancel_witness :
    (stepKey (List.foldl stepKey
        (stepKey c5model (Key.char '/'))
        [Key.char 'a', Key.char 'b', Key.backspace]) Key.esc).results = c5model.results
  ∧ (stepKey (List.foldl stepKey
        (stepKey c5model (Key.char '/'))
        [Key.char 'a', Key.char 'b', Key.backspace]) Key.esc).selected = c5model.selected
  ∧ (stepKey (List.foldl stepKey
        (stepKey c5model (Key.char '/'))
        [Key.char 'a', Key.char 'b', Key.backspace]) Key.esc).state = "results" :=
  filter_cancel_restores c5model (Key.char '/') [Key.char 'a', Key.char 'b', Key.backspace]
    rfl (Or.inl rfl) (by decide)

/-! ## Selection toggle (C8) -/

/-- Setting one index leaves every other index of the mask unchanged. -/
theorem getD_set_ne (l : List Bool) (i j : Nat) (h : j ≠ i) (b d : Bool) :
    (l.set i b).getD j d = l.getD j d := by
  induction l generalizing i j with
  | nil => simp
  | cons a l ih =>
    cases i with
    | zero =>
      cases j with
      | zero => exact absurd rfl h
      | succ j => simp
    | succ i =>
      cases j with
      | zero => simp
      | succ j => simpa using ih i j (by omega)

/-- C8: in the `results` state the space key flips exactly the mask entry
at the cursor, leaving every other mask entry, the displayed ResultSet and
the filter-active flag unchanged. -/
theorem toggle_selection_frame (m : Model) (hst : m.state = "results")
    (hc : m.cursor < m.selected.length) :
    (stepKey m (Key.char ' ')).selected
        = m.selected.set m.cursor (!(m.selected.getD m.cursor false))
  ∧ (∀ i : Nat, i ≠ m.cursor →
        (stepKey m (Key.char ' ')).selected.getD i false = m.selected.getD i false)
  ∧ (stepKey m (Key.char ' ')).selected.length = m.selected.length
  ∧ (stepKey m (Key.char ' ')).results = m.results
  ∧ (stepKey m (Key.char ' ')).hasFilter = m.hasFilter := by
  have hsel : (stepKey m (Key.char ' ')).selected
      = m.selected.set m.cursor (!(m.selected.getD m.cursor false)) := by
    simp [stepKey, updateKey, hst, resultsKey, hc]
  refine ⟨hsel, fun i hi => ?_, ?_, ?_, ?_⟩
  · rw [hsel]; exact getD_set_ne _ _ _ hi _ _
  · rw [hsel]; simp
  · simp [stepKey, updateKey, hst, resultsKey, hc]
  · simp [stepKey, updateKey, hst, resultsKey, hc]

/-- Witness for C8: the spec's end-to-end scenario — five rows, toggle
row 2 (index 1), then open a filter and escape it: row 2 is still
selected and the filter-active flag is unchanged. -/
theorem toggle_selection_witness :
    ((stepKey c8model (Key.char ' ')).selected
        = c8model.selected.set c8model.cursor (!(c8model.selected.getD c8model.cursor false)))
  ∧ (stepKey c8model (Key.char ' ')).selected = [false, true, false, false, false]
  ∧ (stepKey (stepKey (stepKey c8model (Key.char ' ')) (Key.char '/')) Key.esc).selected.getD 1
        false = true
  ∧ (stepKey (stepKey (stepKey c8model (Key.char ' ')) (Key.char '/')) Key.esc).hasFilter
        = c8model.hasFilter
  ∧ (stepKey (stepKey (stepKey c8model (Key.char ' ')) (Key.char '/')) Key.esc).state
        = "results" :=
  ⟨(toggle_selection_frame c8model rfl (by decide)).1, by decide, by decide, by decide, by decide⟩

/-! ## Batch delete (C1, C2) -/

/-- Every failed name is reported inside the aggregated error string. -/
theorem deleteErr_names (fails : String → Bool) :
    ∀ l : List (SecretResult × Bool),
      ∀ n ∈ (l.filter fun p => p.2 && fails p.1.name).map (fun p => p.1.name),
        ∃ a b : String, deleteErrLoop fails l = a ++ n ++ b := by
  intro l
  induction l with
  | nil => simp
  | cons p rest ih =>
    obtain ⟨r, sel⟩ := p
    intro n hn
    by_cases hc : (sel && fails r.name) = true
    · simp only [List.filter_cons, hc, if_pos, List.map_cons, List.mem_cons] at hn
      rcases hn with hn | hn
      · subst hn
        refine ⟨"", ": delete failed\n" ++ deleteErrLoop fails rest, ?_⟩
        simp [deleteErrLoop, hc, String.empty_append, String.append_assoc]
      · obtain ⟨a, b, hab⟩ := ih n hn
        refine ⟨r.name ++ ": delete failed\n" ++ a, b, ?_⟩
        simp [deleteErrLoop, hc, hab, String.append_assoc]
    · simp only [List.filter_cons, hc, if_neg, Bool.false_eq_true, ite_false] at hn
      obtain ⟨a, b, hab⟩ := ih n hn
      exact ⟨a, b, by simp [deleteErrLoop, hc, hab]⟩

/-- C1 counterexample: in the spec's scenario (three results `a`, `b`,
`c`; `a` and `b` selected; the delete of `b` fails) the post-delete
ResultSet retains all 3 records, not 2: the successfully deleted `a` is
not removed, both stay selected, and only the aggregated error is set. -/
theorem delete_partial_failure_counterexample :
    (update c1model (performDelete failsOnlyB c1model)).1.results.length = 3
  ∧ (update c1model (performDelete failsOnlyB c1model)).1.results.length ≠ 2
  ∧ (update c1model (performDelete failsOnlyB c1model)).1.results
      = [rec0 "a", rec0 "b", rec0 "c"]
  ∧ (update c1model (performDelete failsOnlyB c1model)).1.selected = [true, true, false]
  ∧ (update c1model (performDelete failsOnlyB c1model)).1.deleteError = "b: delete failed\n"
  := by decide

/-- C1 (amended): batch delete is best-effort in issuing the calls — it
continues past individual failures and aggregates the per-record errors
into one message naming every failed record — but when any delete fails
the completion handler removes nothing: the displayed ResultSet, the base
set and the selection mask are all left unchanged (successfully deleted
records included), the state returns to `results`, and the aggregated
error is displayed; in the spec's scenario the ResultSet retains all 3
records. -/
theorem delete_partial_failure_keeps_all (m : Model) (fails : String → Bool)
    (h : 0 < (deleteErrLoop fails (m.results.zip m.selected)).length) :
    performDelete fails m
      = Msg.deleteComplete (some (deleteErrLoop fails (m.results.zip m.selected)))
  ∧ (update m (performDelete fails m)).1.results = m.results
  ∧ (update m (performDelete fails m)).1.selected = m.selected
  ∧ (update m (performDelete fails m)).1.baseResults = m.baseResults
  ∧ (update m (performDelete fails m)).1.state = "results"
  ∧ (update m (performDelete fails m)).1.deleteError
      = deleteErrLoop fails (m.results.zip m.selected)
  ∧ ∀ n ∈ deleteFailedNames fails m,
      ∃ a b : String, (update m (performDelete fails m)).1.deleteError = a ++ n ++ b := by
  have hmsg : performDelete fails m
      = Msg.deleteComplete (some (deleteErrLoop fails (m.results.zip m.selected))) := by
    simp [performDelete, h]
  refine ⟨hmsg, ?_, ?_, ?_, ?_, ?_, ?_⟩ <;> rw [hmsg]
  · rfl
  · rfl
  · rfl
  · rfl
  · rfl
  · intro n hn
    exact deleteErr_names fails (m.results.zip m.selected) n hn

/-- Witness for C1 (amended) at the concrete scenario. -/
theorem delete_partial_failure_witness :
    (update c1model (performDelete failsOnlyB c1model)).1.results = c1model.results
  ∧ (update c1model (performDelete failsOnlyB c1model)).1.selected = c1model.selected :=
  ⟨(delete_partial_failure_keeps_all c1model failsOnlyB (by decide)).2.1,
   (delete_partial_failure_keeps_all c1model failsOnlyB (by decide)).2.2.1⟩

/-- C2 counterexample: two concrete completions refute the claim.  With
base `[a, b, c]`, an active filter displaying `[a, b]` and `a` selected,
a fully successful delete replaces the base set by `[b]` — the record `c`,
present in base but hidden by the filter, does NOT remain in the base
set.  And with one failing delete (`c1model`, fails on `b`), the
successfully deleted record `a` is NOT removed. -/
theorem delete_complete_counterexample :
    (update c2model (performDelete (fun _ => false) c2model)).1.baseResults = [rec0 "b"]
  ∧ ¬ (rec0 "c" ∈ (update c2model (performDelete (fun _ => false) c2model)).1.baseResults)
  ∧ (update c1model (performDelete failsOnlyB c1model)).1.results
      = [rec0 "a", rec0 "b", rec0 "c"]
  := by decide

/-- C2 (amended): when a delete completes the orchestrator transitions to
`results`; on full success it removes every selected record from the
displayed set, resets the mask to all-unselected, and replaces the base
set with the resulting displayed set (so base records hidden by an active
filter are dropped rather than retained); on any failure it removes
nothing — displayed set, base set and mask are unchanged and the
aggregated error is stored. -/
theorem delete_complete_spec (m : Model) (e : String) :
    (update m (Msg.deleteComplete Option.none)).1.results
      = ((m.results.zip m.selected).filter fun p => !p.2).map (fun p => p.1)
  ∧ (update m (Msg.deleteComplete Option.none)).1.baseResults
      = (update m (Msg.deleteComplete Option.none)).1.results
  ∧ (update m (Msg.deleteComplete Option.none)).1.selected
      = List.replicate (update m (Msg.deleteComplete Option.none)).1.results.length false
  ∧ (update m (Msg.deleteComplete Option.none)).1.state = "results"
  ∧ (update m (Msg.deleteComplete (some e))).1.results = m.results
  ∧ (update m (Msg.deleteComplete (some e))).1.baseResults = m.baseResults
  ∧ (update m (Msg.deleteComplete (some e))).1.selected = m.selected
  ∧ (update m (Msg.deleteComplete (some e))).1.deleteError = e
  ∧ (update m (Msg.deleteComplete (some e))).1.state = "results" := by
  refine ⟨rfl, rfl, ?_, rfl, rfl, rfl, rfl, rfl, rfl⟩
  show ((m.results.zip m.selected).filter fun p => !p.2).map (fun _ => false)
      = List.replicate (((m.results.zip m.selected).filter fun p => !p.2).map
          (fun p => p.1)).length false
  rw [List.length_map]
  exact List.map_const' _ false

/-! ## Mask length invariant (C6) -/

/-- C6 counterexample: a reachable run — scan one record, rescan, rescan
fails — ends in a completed transition to `results` where the selection
mask still has length 1 but the ResultSet is empty, violating the claimed
always-invariant. -/
theorem mask_length_counterexample :
    Reachable (fun _ => True) (initialModel true) c6final
  ∧ c6final.state = "results"
  ∧ c6final.results.length = 0
  ∧ c6final.selected.length = 1
  ∧ c6final.selected.length ≠ c6final.results.length := by
  refine ⟨?_, by decide, by decide, by decide, by decide⟩
  exact Reachable.step _ (Reachable.step _ (Reachable.step _ (Reachable.step _
    (Reachable.step _ Reachable.refl trivial) trivial) trivial) trivial) trivial

/-- One step preserves the mask/result and snapshot length equalities, as
long as the step is not a failed scan completion. -/
theorem update_mask_length (m : Model) (msg : Msg) (hmsg : scanOk msg)
    (h1 : m.selected.length = m.results.length)
    (h2 : m.originalSelected.length = m.originalResults.length) :
    (update m msg).1.selected.length = (update m msg).1.results.length
  ∧ (update m msg).1.originalSelected.length = (update m msg).1.originalResults.length := by
  cases msg with
  | key k =>
    show (updateKey m k).1.selected.length = (updateKey m k).1.results.length
      ∧ (updateKey m k).1.originalSelected.length = (updateKey m k).1.originalResults.length
    unfold updateKey
    split
    · exact ⟨h1, h2⟩
    split
    · unfold confirmDeleteKey
      repeat' split
      all_goals exact ⟨h1, h2⟩
    split
    · simp only [filterKey]
      repeat' split
      all_goals simp_all
    split
    · unfold viewSecretKey
      repeat' split
      all_goals exact ⟨h1, h2⟩
    split
    · rw [resultsKey_eq_cases]
      unfold resultsKeyCases
      repeat' split
      all_goals simp_all
    · exact ⟨h1, h2⟩
  | startScan =>
    simp only [update]
    split <;> exact ⟨h1, h2⟩
  | analysisComplete results err =>
    cases err with
    | none => simp [update, h2]
    | some e => exact hmsg.elim
  | versionsFetched versions err => cases err <;> simp [update, h1, h2]
  | valueRevealed i v err => cases err <;> simp [update, h1, h2]
  | deleteComplete err =>
    cases err with
    | none => simp [update, h2]
    | some e => simp [update, h1, h2]
  | clearCopied => simp [update, h1, h2]

/-- In every state reachable without a failed scan completion, the mask
length matches the displayed result count (and likewise for the
snapshot pair). -/
theorem mask_length_invariant (ok : Bool) (m : Model)
    (hr : Reachable scanOk (initialModel ok) m) :
    m.selected.length = m.results.length
  ∧ m.originalSelected.length = m.originalResults.length := by
  induction hr with
  | refl => exact ⟨rfl, rfl⟩
  | step msg hprev hP ih => exact update_mask_length _ msg hP ih.1 ih.2

/-- C6 (amended): after every transition of a run whose scan completions
all succeed, the selection-mask length equals the displayed result count
(a failed scan completion empties the ResultSet but keeps the stale
mask, as the counterexample shows); and any filter commit resets the
mask to all-false at the new result count. -/
theorem mask_length_invariant_amended :
    (∀ (ok : Bool) (m : Model), Reachable scanOk (initialModel ok) m →
        m.selected.length = m.results.length)
  ∧ (∀ m : Model, (m.state = "filter_include" ∨ m.state = "filter_exclude") →
        (stepKey m Key.enter).selected
          = List.replicate (stepKey m Key.enter).results.length false) := by
  constructor
  · intro ok m hr
    exact (mask_length_invariant ok m hr).1
  · intro m hst
    rcases hst with h | h <;> simp [stepKey, updateKey, filterKey, h]

/-- Witness for C6 (amended) at concrete states. -/
theorem mask_length_invariant_witness :
    (initialModel true).selected.length = (initialModel true).results.length
  ∧ (stepKey c7model Key.enter).selected
      = List.replicate (stepKey c7model Key.enter).results.length false :=
  ⟨mask_length_invariant_amended.1 true _ Reachable.refl,
   mask_length_invariant_amended.2 c7model (Or.inl rfl)⟩

/-! ## Confirm-delete guard (C9) -/

/-- One key event preserves the property that the `confirm_delete` state
is only inhabited with at least one selected record. -/
theorem updateKey_confirm_selected (m : Model) (k : Key)
    (h : m.state = "confirm_delete" → m.selected.any (fun b => b) = true) :
    (updateKey m k).1.state = "confirm_delete" →
    (updateKey m k).1.selected.any (fun b => b) = true := by
  unfold updateKey
  split
  · exact h
  split
  · unfold confirmDeleteKey
    repeat' split
    all_goals simp_all
  split
  · rename_i hf
    rcases hf with hh | hh <;>
      · simp only [filterKey]
        repeat' split
        all_goals simp_all
  split
  · unfold viewSecretKey
    repeat' split
    all_goals simp_all
  split
  · rw [resultsKey_eq_cases]
    unfold resultsKeyCases
    repeat' split
    all_goals simp_all
  · exact h

/-- Every message preserves the confirm-delete selection guard. -/
theorem update_confirm_selected (m : Model) (msg : Msg)
    (h : m.state = "confirm_delete" → m.selected.any (fun b => b) = true) :
    (update m msg).1.state = "confirm_delete" →
    (update m msg).1.selected.any (fun b => b) = true := by
  cases msg with
  | key k => exact updateKey_confirm_selected m k h
  | startScan =>
    simp only [update]
    split <;> simp
  | analysisComplete results err => cases err <;> simp [update]
  | versionsFetched versions err =>
    cases err with
    | none => simpa [update] using h
    | some e => simp [update]
  | valueRevealed i v err => cases err <;> simpa [update] using h
  | deleteComplete err => cases err <;> simp [update]
  | clearCopied => simpa [update] using h

/-- C9: in every reachable session state, being in `confirm_delete`
implies at least one entry of the selection mask is true (so with zero
scanned records no path into `confirm_delete` exists). -/
theorem confirm_delete_needs_selection (ok : Bool) (m : Model)
    (hr : Reachable (fun _ => True) (initialModel ok) m)
    (hs : m.state = "confirm_delete") :
    m.selected.any (fun b => b) = true := by
  revert hs
  induction hr with
  | refl => intro hs; simp [initialModel] at hs
  | step msg hprev hP ih => exact update_confirm_selected _ msg ih

/-- Witness for C9: a concrete run reaching `confirm_delete`. -/
theorem confirm_delete_needs_selection_witness :
    c9final.selected.any (fun b => b) = true :=
  confirm_delete_needs_selection true c9final
    (Reachable.step _ (Reachable.step _ (Reachable.step _ (Reachable.step _
      Reachable.refl trivial) trivial) trivial) trivial)
    (by decide)

/-! ## Global quit and the filter query (C10) -/

/-- Feeding any key other than `q` to the textinput never makes the value
contain `'q'`. -/
theorem textinput_noQ (value : List Char) (k : Key) (hk : k ≠ Key.char 'q')
    (h : 'q' ∉ value) : 'q' ∉ textinputUpdate value k := by
  cases k with
  | char c =>
    have hc : ¬('q' = c) := fun hh => hk (by rw [hh])
    simpa [textinputUpdate, hc] using h
  | backspace =>
    intro hmem
    exact h ((List.dropLast_sublist value).subset hmem)
  | enter => exact h
  | esc => exact h
  | up => exact h
  | down => exact h
  | ctrlC => exact h

/-- One key event never introduces `'q'` into the filter query. -/
theorem updateKey_noQ (m : Model) (k : Key) (h : 'q' ∉ m.filterValue) :
    'q' ∉ (updateKey m k).1.filterValue := by
  unfold updateKey
  split
  · exact h
  rename_i hq
  have hk : k ≠ Key.char 'q' := fun hh => hq (Or.inl hh)
  split
  · unfold confirmDeleteKey
    repeat' split
    all_goals exact h
  split
  · simp only [filterKey]
    repeat' split
    all_goals exact textinput_noQ m.filterValue k hk h
  split
  · unfold viewSecretKey
    repeat' split
    all_goals exact h
  split
  · rw [resultsKey_eq_cases]
    unfold resultsKeyCases
    repeat' split
    all_goals first
      | exact h
      | simp
  · exact h

/-- Every message preserves `'q'`-freeness of the filter query. -/
theorem update_noQ (m : Model) (msg : Msg) (h : 'q' ∉ m.filterValue) :
    'q' ∉ (update m msg).1.filterValue := by
  cases msg with
  | key k => exact updateKey_noQ m k h
  | startScan =>
    simp only [update]
    split <;> exact h
  | analysisComplete results err => cases err <;> exact h
  | versionsFetched versions err => cases err <;> exact h
  | valueRevealed i v err => cases err <;> exact h
  | deleteComplete err => cases err <;> exact h
  | clearCopied => exact h

/-- C10: a `q` or `ctrl+c` key press quits in every session state before
any state-specific handling runs, leaving the model untouched; and
consequently in every reachable state the filter query never contains the
character `'q'`. -/
theorem global_quit_and_query_without_q :
    (∀ (m : Model) (k : Key), k = Key.char 'q' ∨ k = Key.ctrlC →
        updateKey m k = (m, Cmd.quit))
  ∧ (∀ (ok : Bool) (m : Model), Reachable (fun _ => True) (initialModel ok) m →
        'q' ∉ m.filterValue) := by
  constructor
  · intro m k hk
    unfold updateKey
    rw [if_pos hk]
  · intro ok m hr
    induction hr with
    | refl => simp [initialModel]
    | step msg hprev hP ih => exact update_noQ _ msg ih

/-- Witness for C10: the quit behaviour at a concrete state and the
invariant at the initial state. -/
theorem global_quit_witness :
    updateKey c1model (Key.char 'q') = (c1model, Cmd.quit)
  ∧ 'q' ∉ (initialModel true).filterValue :=
  ⟨global_quit_and_query_without_q.1 c1model (Key.char 'q') (Or.inl rfl),
   global_quit_and_query_without_q.2 true (initialModel true) Reachable.refl⟩

end Sniffy
